import Mathlib

/-!
Verification of the client-side track cache and synchronization layer of the
ongaku-frontend repository.

The embedding follows the source:
* `src/lib/types.ts` — the `Track` record, `TrackListResponse`, and the
  `ApiService` facade (`getTracksWithCache`, `searchTracksWithCache`,
  `populateCache`, `rescanLibrary`, `clearCache`, ...);
* `src/lib/cache.ts` — the `TrackCache` IndexedDB store (`storeTracks`,
  `getAllTracks`, `getTracksByFilter`, `getTracksByIndex`, `searchTracks`,
  `removeTracks`, `clearCache`, `isEmpty`, `getUniqueValues`,
  `syncWithServer`).

Modelling conventions:
* The IndexedDB object store (keyed by `id`) is modelled as a `List Track`;
  `put` replaces the record with a matching key in place and appends
  otherwise, `delete` filters by key, `index.getAll(value)` returns the
  records whose indexed field is exactly equal to `value` (IndexedDB key
  equality).  Identifier uniqueness of a keyed store appears as the
  hypothesis `(ids store).Nodup` where a theorem needs it.
* JavaScript numbers that are used as integers (`id`, `page`, `per_page`,
  counts) are modelled as `Nat`; `Math.ceil(a / b)` on such values is
  modelled as exact rational ceiling, i.e. `(a + b - 1) / b` on `Nat`.
* JavaScript strings are modelled as Lean `String`; `toLowerCase`, `trim`
  and `includes` are modelled character-wise (`jsToLower`, `jsTrim`,
  `strIncludes`) so that they compute by `decide`.
* `async`/`await` code is modelled as pure state passing; a fallible store
  operation is modelled with `Except`.  For the one concurrency claim, the
  interleaving of two callers is modelled as an explicit scheduler over a
  two-caller step relation.
-/

set_option maxRecDepth 100000

namespace Ongaku

/-- Track record, from `src/lib/types.ts` (`interface Track`).  The open
tag map (`Record<string, string | number | boolean | null>`) is modelled as
an association list; no modelled operation inspects tag values, so they are
abstracted as strings. -/
structure Track where
  id : Nat
  path : String
  extension : String
  title : String
  artist : String
  album : String
  disc_number : Option Int
  track_number : Option Int
  year : Option Int
  genre : String
  album_artist : String
  publisher : String
  catalog_number : String
  duration_seconds : Nat
  audio_bitrate : Nat
  overall_bitrate : Nat
  sample_rate : Nat
  bit_depth : Nat
  channels : Nat
  tags : List (String × String)
  created : String
  modified : String
  deriving DecidableEq

/-- Paged response shape, from `src/lib/types.ts` (`interface TrackListResponse`). -/
structure TrackListResponse where
  tracks : List Track
  total : Nat
  page : Nat
  per_page : Nat
  total_pages : Nat
  deriving DecidableEq

/-- The string-valued fields of a track record (used by filters, search and
`getUniqueValues`). -/
inductive StrField where
  | title | artist | album | genre | album_artist
  | publisher | catalog_number | path | extension | created | modified
  deriving DecidableEq

/-- Field projection `track[field]` for the string-valued fields. -/
def Track.getStr (t : Track) : StrField → String
  | .title => t.title
  | .artist => t.artist
  | .album => t.album
  | .genre => t.genre
  | .album_artist => t.album_artist
  | .publisher => t.publisher
  | .catalog_number => t.catalog_number
  | .path => t.path
  | .extension => t.extension
  | .created => t.created
  | .modified => t.modified

/-- The fields that have a secondary index and are accepted by the
index-eligibility test at `src/lib/cache.ts:90`
(`['artist', 'album', 'genre', 'album_artist'].includes(key)`). -/
def isIndexedField : StrField → Bool
  | .artist | .album | .genre | .album_artist => true
  | _ => false

/-- Character-wise model of JavaScript `String.prototype.toLowerCase`. -/
def jsToLower (s : String) : String := ⟨s.data.map Char.toLower⟩

/-- Character-wise model of JavaScript `String.prototype.trim`. -/
def jsTrim (s : String) : String :=
  ⟨((s.data.dropWhile Char.isWhitespace).reverse.dropWhile Char.isWhitespace).reverse⟩

/-- Model of JavaScript `s.includes(sub)`: `sub` occurs contiguously in `s`
at some position. -/
def strIncludes (s sub : String) : Bool :=
  (List.range (s.data.length + 1)).any fun k =>
    (s.data.drop k).take sub.data.length == sub.data

/-- Case-insensitive substring containment, the specification-level reading
of `hay.toLowerCase().includes(needle.toLowerCase())`. -/
def ContainsCI (hay needle : String) : Prop :=
  ∃ l r, (jsToLower hay).data = l ++ (jsToLower needle).data ++ r

/-- The identifier column of a store snapshot. -/
def ids (l : List Track) : List Nat := l.map Track.id

/-- One `store.put(track)` against the keyed object store: overwrite the
record with the same key if present, append otherwise
(`src/lib/cache.ts:56`). -/
def putTrack (s : List Track) (t : Track) : List Track :=
  if s.any (fun u => u.id == t.id) then
    s.map (fun u => if u.id == t.id then t else u)
  else
    s ++ [t]

/-- `TrackCache.storeTracks` (`src/lib/cache.ts:44`): put each track of the
batch in order. -/
def storeTracks (s : List Track) (tracks : List Track) : List Track :=
  tracks.foldl putTrack s

/-- `TrackCache.removeTracks` (`src/lib/cache.ts:168`): delete each id of
the batch in order. -/
def removeTracks (s : List Track) (idsToRemove : List Nat) : List Track :=
  idsToRemove.foldl (fun acc i => acc.filter (fun t => t.id != i)) s

/-- `TrackCache.clearCache` (`src/lib/cache.ts:185`). -/
def clearCache (_s : List Track) : List Track := []

/-- `TrackCache.isEmpty` (`src/lib/cache.ts:208`). -/
def isEmpty (s : List Track) : Bool := s.length == 0

/-- `TrackCache.searchTracks` (`src/lib/cache.ts:133`): full scan, a record
matches when the lowercased query occurs in the lowercased title, artist,
album, genre or album-artist field. -/
def searchTracks (tracks : List Track) (query : String) : List Track :=
  let searchTerm := jsToLower query
  tracks.filter fun track =>
    strIncludes (jsToLower track.title) searchTerm ||
    strIncludes (jsToLower track.artist) searchTerm ||
    strIncludes (jsToLower track.album) searchTerm ||
    strIncludes (jsToLower track.genre) searchTerm ||
    strIncludes (jsToLower track.album_artist) searchTerm

/-- A sample track constructor used by concrete witnesses. -/
def mkTrack (id : Nat) (title artist album genre album_artist modified : String) : Track :=
  { id := id, path := "", extension := "", title := title, artist := artist,
    album := album, disc_number := none, track_number := none, year := none,
    genre := genre, album_artist := album_artist, publisher := "",
    catalog_number := "", duration_seconds := 0, audio_bitrate := 0,
    overall_bitrate := 0, sample_rate := 0, bit_depth := 0, channels := 0,
    tags := [], created := "", modified := modified }

/-! ### String helper lemmas -/

theorem strIncludes_iff (s sub : String) :
    strIncludes s sub = true ↔ ∃ l r, s.data = l ++ sub.data ++ r := by
  constructor
  · intro h
    rw [strIncludes, List.any_eq_true] at h
    obtain ⟨k, _, hk⟩ := h
    have heq : (s.data.drop k).take sub.data.length = sub.data := by
      exact beq_iff_eq.mp hk
    refine ⟨s.data.take k, (s.data.drop k).drop sub.data.length, ?_⟩
    have h2 : s.data.drop k = sub.data ++ (s.data.drop k).drop sub.data.length := by
      conv_lhs => rw [← List.take_append_drop sub.data.length (s.data.drop k)]
      rw [heq]
    rw [List.append_assoc, ← h2, List.take_append_drop]
  · rintro ⟨l, r, h⟩
    rw [strIncludes, List.any_eq_true]
    refine ⟨l.length, ?_, ?_⟩
    · rw [List.mem_range]
      have hlen : s.data.length = (l ++ sub.data ++ r).length := by rw [h]
      rw [List.length_append, List.length_append] at hlen
      omega
    · have hdrop : s.data.drop l.length = sub.data ++ r := by
        rw [h, List.append_assoc]
        simp
      have htake : (s.data.drop l.length).take sub.data.length = sub.data := by
        rw [hdrop]
        simp
      rw [htake]
      simp

theorem strIncludes_empty (s : String) : strIncludes s "" = true := by
  rw [strIncludes_iff]
  exact ⟨[], s.data, by simp⟩

theorem strIncludes_self (s : String) : strIncludes s s = true := by
  rw [strIncludes_iff]
  exact ⟨[], [], by simp⟩

/-! ### Store lemmas: identifiers under put, store-batch and remove -/

theorem mem_ids_iff (l : List Track) (i : Nat) :
    i ∈ ids l ↔ ∃ t ∈ l, t.id = i := by
  simp [ids]

theorem ids_putTrack_of_any (s : List Track) (t : Track)
    (h : s.any (fun u => u.id == t.id) = true) : ids (putTrack s t) = ids s := by
  rw [putTrack, if_pos h, ids, ids, List.map_map]
  apply List.map_congr_left
  intro u _
  by_cases hu : u.id = t.id
  · simp [hu]
  · simp [hu]

theorem ids_putTrack_of_not_any (s : List Track) (t : Track)
    (h : s.any (fun u => u.id == t.id) = false) :
    ids (putTrack s t) = ids s ++ [t.id] := by
  rw [putTrack, if_neg (by simp [h]), ids, ids, List.map_append]
  rfl

theorem any_id_iff (s : List Track) (i : Nat) :
    s.any (fun u => u.id == i) = true ↔ i ∈ ids s := by
  simp [ids, List.any_eq_true]

theorem mem_ids_putTrack (s : List Track) (t : Track) (i : Nat) :
    i ∈ ids (putTrack s t) ↔ i ∈ ids s ∨ i = t.id := by
  cases hany : s.any (fun u => u.id == t.id)
  · rw [ids_putTrack_of_not_any s t hany, List.mem_append, List.mem_singleton]
  · rw [ids_putTrack_of_any s t hany]
    constructor
    · exact Or.inl
    · rintro (h | rfl)
      · exact h
      · exact (any_id_iff s t.id).mp hany

theorem nodup_ids_putTrack (s : List Track) (t : Track)
    (h : (ids s).Nodup) : (ids (putTrack s t)).Nodup := by
  cases hany : s.any (fun u => u.id == t.id)
  · rw [ids_putTrack_of_not_any s t hany]
    have hni : t.id ∉ ids s := by
      intro hmem
      rw [← any_id_iff s t.id] at hmem
      rw [hany] at hmem
      exact Bool.false_ne_true hmem
    simp [List.nodup_append, h, hni]
  · rw [ids_putTrack_of_any s t hany]
    exact h

theorem mem_ids_storeTracks (s : List Track) (batch : List Track) (i : Nat) :
    i ∈ ids (storeTracks s batch) ↔ i ∈ ids s ∨ i ∈ ids batch := by
  induction batch generalizing s with
  | nil => simp [storeTracks, ids]
  | cons t rest ih =>
    show i ∈ ids (storeTracks (putTrack s t) rest) ↔ _
    rw [ih, mem_ids_putTrack]
    have hcons : ids (t :: rest) = t.id :: ids rest := rfl
    rw [hcons, List.mem_cons]
    tauto

theorem mem_putTrack_decomp (s : List Track) (t u : Track)
    (h : u ∈ putTrack s t) : u = t ∨ (u ∈ s ∧ u.id ≠ t.id) := by
  rw [putTrack] at h
  by_cases hany : s.any (fun v => v.id == t.id) = true
  · rw [if_pos hany] at h
    obtain ⟨v, hv, heq⟩ := List.mem_map.mp h
    by_cases hid : v.id = t.id
    · left
      rw [← heq]
      simp [hid]
    · right
      have : u = v := by rw [← heq]; simp [hid]
      subst this
      exact ⟨hv, hid⟩
  · rw [if_neg hany] at h
    rcases List.mem_append.mp h with hu | hu
    · right
      refine ⟨hu, ?_⟩
      rw [Bool.not_eq_true, List.any_eq_false] at hany
      have := hany u hu
      simpa using this
    · left
      simpa using hu

theorem mem_storeTracks_decomp (s : List Track) (batch : List Track) (u : Track)
    (h : u ∈ storeTracks s batch) :
    u ∈ batch ∨ (u ∈ s ∧ u.id ∉ ids batch) := by
  induction batch generalizing s with
  | nil => right; simpa [storeTracks, ids] using h
  | cons t rest ih =>
    have h' : u ∈ storeTracks (putTrack s t) rest := h
    rcases ih (putTrack s t) h' with hu | ⟨hu, hni⟩
    · left; exact List.mem_cons_of_mem t hu
    · rcases mem_putTrack_decomp s t u hu with rfl | ⟨hs, hid⟩
      · left; exact List.mem_cons_self u rest
      · right
        refine ⟨hs, ?_⟩
        simp only [ids, List.map_cons, List.mem_cons]
        rintro (h1 | h2)
        · exact hid h1
        · exact hni h2

theorem mem_removeTracks (s : List Track) (rs : List Nat) (t : Track) :
    t ∈ removeTracks s rs ↔ t ∈ s ∧ t.id ∉ rs := by
  induction rs generalizing s with
  | nil => simp [removeTracks]
  | cons r rest ih =>
    show t ∈ removeTracks (s.filter (fun u => u.id != r)) rest ↔ _
    rw [ih, List.mem_filter]
    simp [bne_iff_ne]
    tauto

theorem mem_ids_removeTracks (s : List Track) (rs : List Nat) (i : Nat) :
    i ∈ ids (removeTracks s rs) ↔ i ∈ ids s ∧ i ∉ rs := by
  rw [mem_ids_iff, mem_ids_iff]
  constructor
  · rintro ⟨t, ht, rfl⟩
    obtain ⟨hs, hr⟩ := (mem_removeTracks s rs t).mp ht
    exact ⟨⟨t, hs, rfl⟩, hr⟩
  · rintro ⟨⟨t, ht, rfl⟩, hr⟩
    exact ⟨t, (mem_removeTracks s rs t).mpr ⟨ht, hr⟩, rfl⟩

theorem storeTracks_nil (s : List Track) : storeTracks s [] = s := rfl

theorem removeTracks_nil (s : List Track) : removeTracks s [] = s := rfl

theorem id_inj (l : List Track) (h : (ids l).Nodup) {u v : Track}
    (hu : u ∈ l) (hv : v ∈ l) (hid : u.id = v.id) : u = v :=
  List.inj_on_of_nodup_map h hu hv hid

/-! ### C5 — search OR-semantics -/

/-- C5: for every stored track `t` and query `q`, `searchTracks q` includes
`t` iff the lowercased query occurs as a substring of the (lowercased)
title, artist, album, genre or album-artist field — case-insensitive
substring containment, logical OR across exactly those five fields. -/
theorem c5_search_or_semantics (tracks : List Track) (q : String) (t : Track)
    (ht : t ∈ tracks) :
    t ∈ searchTracks tracks q ↔
      ContainsCI t.title q ∨ ContainsCI t.artist q ∨ ContainsCI t.album q ∨
      ContainsCI t.genre q ∨ ContainsCI t.album_artist q := by
  rw [searchTracks]
  rw [List.mem_filter]
  simp only [ht, true_and, Bool.or_eq_true]
  rw [strIncludes_iff, strIncludes_iff, strIncludes_iff, strIncludes_iff, strIncludes_iff]
  simp only [ContainsCI, or_assoc]

/-- Witness for C5: a record with artist "Queen" and title "Bohemian"
matches both the query "queen" and the query "bohe". -/
theorem c5_search_or_semantics_witness :
    (mkTrack 1 "Bohemian" "Queen" "" "" "" "" ∈
      [mkTrack 1 "Bohemian" "Queen" "" "" "" ""]) ∧
    (mkTrack 1 "Bohemian" "Queen" "" "" "" "" ∈
        searchTracks [mkTrack 1 "Bohemian" "Queen" "" "" "" ""] "queen" ↔
      ContainsCI "Bohemian" "queen" ∨ ContainsCI "Queen" "queen" ∨
      ContainsCI "" "queen" ∨ ContainsCI "" "queen" ∨ ContainsCI "" "queen") ∧
    (mkTrack 1 "Bohemian" "Queen" "" "" "" "" ∈
      searchTracks [mkTrack 1 "Bohemian" "Queen" "" "" "" ""] "queen") ∧
    (mkTrack 1 "Bohemian" "Queen" "" "" "" "" ∈
      searchTracks [mkTrack 1 "Bohemian" "Queen" "" "" "" ""] "bohe") :=
  ⟨by decide,
   c5_search_or_semantics _ "queen" _ (by decide),
   by decide, by decide⟩

/-! ### C7 — idempotent upsert -/

theorem countP_id_eq_count_ids (l : List Track) (i : Nat) :
    l.countP (fun u => u.id == i) = (ids l).count i := by
  rw [ids, List.count, List.countP_map]
  rfl

/-- C7: putting the same track twice leaves exactly one record with its
identifier in the store, and preserves identifier uniqueness.  The
hypothesis `(ids store).Nodup` is the key-uniqueness invariant of the
IndexedDB object store (keyed by `id`). -/
theorem c7_idempotent_upsert (store : List Track) (t : Track)
    (h : (ids store).Nodup) :
    (storeTracks (storeTracks store [t]) [t]).countP (fun u => u.id == t.id) = 1 ∧
    (ids (storeTracks (storeTracks store [t]) [t])).Nodup := by
  have h1 : storeTracks store [t] = putTrack store t := rfl
  have h2 : ∀ s : List Track, storeTracks s [t] = putTrack s t := fun _ => rfl
  rw [h2, h2]
  have hmem : t.id ∈ ids (putTrack store t) := (mem_ids_putTrack store t t.id).mpr (Or.inr rfl)
  have hany2 : (putTrack store t).any (fun u => u.id == t.id) = true :=
    (any_id_iff _ t.id).mpr hmem
  have hids2 : ids (putTrack (putTrack store t) t) = ids (putTrack store t) :=
    ids_putTrack_of_any _ t hany2
  have hnd1 : (ids (putTrack store t)).Nodup := nodup_ids_putTrack store t h
  constructor
  · rw [countP_id_eq_count_ids, hids2]
    exact List.count_eq_one_of_mem hnd1 hmem
  · rw [hids2]
    exact hnd1

/-- Witness for C7: concrete two-element store with a fresh and then a
repeated put. -/
theorem c7_idempotent_upsert_witness :
    (ids [mkTrack 1 "a" "b" "c" "d" "e" "m", mkTrack 2 "f" "g" "h" "i" "j" "n"]).Nodup ∧
    ((storeTracks (storeTracks
        [mkTrack 1 "a" "b" "c" "d" "e" "m", mkTrack 2 "f" "g" "h" "i" "j" "n"]
        [mkTrack 2 "x" "y" "z" "w" "v" "u"]) [mkTrack 2 "x" "y" "z" "w" "v" "u"]).countP
        (fun u => u.id == (mkTrack 2 "x" "y" "z" "w" "v" "u").id) = 1 ∧
      (ids (storeTracks (storeTracks
        [mkTrack 1 "a" "b" "c" "d" "e" "m", mkTrack 2 "f" "g" "h" "i" "j" "n"]
        [mkTrack 2 "x" "y" "z" "w" "v" "u"]) [mkTrack 2 "x" "y" "z" "w" "v" "u"])).Nodup) :=
  ⟨by decide, c7_idempotent_upsert _ _ (by decide)⟩

/-! ### Pagination (cache-mode query path of `ApiService`) -/

/-- Model of `Math.ceil(a / b)` for non-negative integers (`b > 0`). -/
def ceilDiv (a b : Nat) : Nat := (a + b - 1) / b

/-- The pagination block shared by `ApiService.getTracksWithCache`
(`src/lib/types.ts:448-459`) and `ApiService.searchTracksWithCache`
(`src/lib/types.ts:485-496`): slice `[(page-1)*per_page, page*per_page)`
out of the resolved track list and report `total` as the full list length
and `total_pages` as the ceiling of `total / per_page`. -/
def paginateCached (tracks : List Track) (page per_page : Nat) : TrackListResponse :=
  let startIndex := (page - 1) * per_page
  let paginatedTracks := (tracks.drop startIndex).take per_page
  { tracks := paginatedTracks, total := tracks.length, page := page,
    per_page := per_page, total_pages := ceilDiv tracks.length per_page }

/-- Cache-mode branch of `ApiService.searchTracksWithCache`
(`src/lib/types.ts:476-496`): resolve the query against the store's
`searchTracks` and paginate. -/
def searchTracksWithCache (tracks : List Track) (q : String) (page per_page : Nat) :
    TrackListResponse :=
  paginateCached (searchTracks tracks q) page per_page

theorem le_ceilDiv_mul (a b : Nat) (hb : 0 < b) : a ≤ ceilDiv a b * b := by
  rcases Nat.eq_zero_or_pos a with ha | ha
  · simp [ha]
  · have h1 : ceilDiv a b = (a - 1) / b + 1 := by
      have hab : a + b - 1 = a - 1 + b := by omega
      rw [ceilDiv, hab, Nat.add_div_right _ hb]
    have h2 := Nat.div_add_mod (a - 1) b
    have h3 := Nat.mod_lt (a - 1) hb
    have h4 : a - 1 < ((a - 1) / b + 1) * b := by
      calc a - 1 = b * ((a - 1) / b) + (a - 1) % b := h2.symm
        _ < b * ((a - 1) / b) + b := by omega
        _ = ((a - 1) / b + 1) * b := by ring
    rw [h1]
    omega

theorem ceilDiv_pred_mul_lt (a b : Nat) (hb : 0 < b) (ha : 0 < a) :
    (ceilDiv a b - 1) * b < a := by
  have h1 : ceilDiv a b = (a - 1) / b + 1 := by
    have hab : a + b - 1 = a - 1 + b := by omega
    rw [ceilDiv, hab, Nat.add_div_right _ hb]
  have h2 : (a - 1) / b * b ≤ a - 1 := Nat.div_mul_le_self (a - 1) b
  rw [h1, Nat.add_sub_cancel]
  omega

theorem ceilDiv_zero_left (b : Nat) (hb : 0 < b) : ceilDiv 0 b = 0 := by
  have hz : (0 : Nat) + b - 1 = b - 1 := by omega
  rw [ceilDiv, hz]
  exact Nat.div_eq_of_lt (by omega)

/-- C2: the cache-mode paged query returns the slice
`[(page-1)*per_page, page*per_page)` of the resolved list, reports `total`
as the full list length, `total_pages` as the ceiling of
`total / per_page` (characterised by the two bounds below), and an
out-of-range page yields an empty `tracks` array instead of an error. -/
theorem c2_pagination_correct (tracks : List Track) (page per_page : Nat)
    (hp : 1 ≤ page) (hpp : 1 ≤ per_page) :
    (paginateCached tracks page per_page).total = tracks.length ∧
    (paginateCached tracks page per_page).page = page ∧
    (paginateCached tracks page per_page).per_page = per_page ∧
    (paginateCached tracks page per_page).tracks.length =
      min per_page (tracks.length - (page - 1) * per_page) ∧
    (∀ i, i < per_page →
      (paginateCached tracks page per_page).tracks[i]? =
        tracks[(page - 1) * per_page + i]?) ∧
    tracks.length ≤ (paginateCached tracks page per_page).total_pages * per_page ∧
    (0 < tracks.length →
      ((paginateCached tracks page per_page).total_pages - 1) * per_page < tracks.length) ∧
    (tracks.length = 0 → (paginateCached tracks page per_page).total_pages = 0) ∧
    (tracks.length ≤ (page - 1) * per_page →
      (paginateCached tracks page per_page).tracks = []) := by
  have hb : 0 < per_page := hpp
  refine ⟨rfl, rfl, rfl, ?_, ?_, ?_, ?_, ?_, ?_⟩
  · show ((tracks.drop ((page - 1) * per_page)).take per_page).length = _
    rw [List.length_take, List.length_drop]
  · intro i hi
    show ((tracks.drop ((page - 1) * per_page)).take per_page)[i]? = _
    rw [List.getElem?_take, if_pos hi, List.getElem?_drop]
  · exact le_ceilDiv_mul tracks.length per_page hb
  · intro hlen
    exact ceilDiv_pred_mul_lt tracks.length per_page hb hlen
  · intro hlen
    show ceilDiv tracks.length per_page = 0
    rw [hlen]
    exact ceilDiv_zero_left per_page hb
  · intro hout
    show (tracks.drop ((page - 1) * per_page)).take per_page = []
    rw [List.drop_eq_nil_of_le hout, List.take_nil]

/-- A concrete catalog of 137 distinct records for the C2 witness. -/
def tracks137 : List Track :=
  (List.range 137).map (fun n => mkTrack n "t" "a" "al" "g" "aa" "m")

/-- Witness for C2 at total=137, per_page=50, page=3: 37 records at
offsets `[100,137)` and `total_pages = 3`. -/
theorem c2_pagination_correct_witness :
    (1 ≤ 3 ∧ 1 ≤ 50) ∧
    ((paginateCached tracks137 3 50).total = tracks137.length ∧
      (paginateCached tracks137 3 50).page = 3 ∧
      (paginateCached tracks137 3 50).per_page = 50 ∧
      (paginateCached tracks137 3 50).tracks.length =
        min 50 (tracks137.length - (3 - 1) * 50) ∧
      (∀ i, i < 50 →
        (paginateCached tracks137 3 50).tracks[i]? = tracks137[(3 - 1) * 50 + i]?) ∧
      tracks137.length ≤ (paginateCached tracks137 3 50).total_pages * 50 ∧
      (0 < tracks137.length →
        ((paginateCached tracks137 3 50).total_pages - 1) * 50 < tracks137.length) ∧
      (tracks137.length = 0 → (paginateCached tracks137 3 50).total_pages = 0) ∧
      (tracks137.length ≤ (3 - 1) * 50 → (paginateCached tracks137 3 50).tracks = [])) ∧
    (paginateCached tracks137 3 50).tracks.length = 37 ∧
    (paginateCached tracks137 3 50).total_pages = 3 :=
  ⟨⟨by decide, by decide⟩,
   c2_pagination_correct tracks137 3 50 (by decide) (by decide),
   by decide, by decide⟩

/-! ### C3 — cache errors fall back to the direct remote call -/

/-- The observed results of the awaited store operations during one
invocation of `ApiService.getTracksWithCache`: `trackCache.isEmpty()`,
`this.populateCache(...)`, `trackCache.getTracksByFilter(filters)` and
`trackCache.getAllTracks()`.  A throwing operation is an `Except.error`. -/
structure CacheOps where
  isEmptyR : Except String Bool
  populateR : Except String Unit
  getAllR : Except String (List Track)
  getByFilterR : Except String (List Track)

/-- `ApiService.getTracksWithCache` (`src/lib/types.ts:423-464`): when
`useCache` is false, the direct remote call; otherwise the try-block
(populate on empty, resolve via filter or full read, paginate), with the
catch-handler falling back to the direct remote call `remote =
this.getTracks(params)`. -/
def getTracksWithCache (ops : CacheOps) (remote : TrackListResponse)
    (hasFilters : Bool) (page per_page : Nat) (useCache : Bool) : TrackListResponse :=
  if useCache = false then remote
  else
    match ops.isEmptyR.bind (fun empty =>
        (if empty then ops.populateR else Except.ok ()).bind (fun _ =>
          (if hasFilters then ops.getByFilterR else ops.getAllR).bind (fun tracks =>
            Except.ok (paginateCached tracks page per_page)))) with
    | .ok r => r
    | .error _ => remote

/-- C3: a store error during a cache-mode query is never fatal — whichever
store operation throws, `getTracksWithCache` resolves to the direct remote
result; and in every case the call resolves to either the remote result or
a paginated cache result. -/
theorem c3_cache_error_fallback (ops : CacheOps) (remote : TrackListResponse)
    (hasFilters : Bool) (page per_page : Nat) :
    (∀ e, ops.isEmptyR = .error e →
      getTracksWithCache ops remote hasFilters page per_page true = remote) ∧
    (∀ e, ops.isEmptyR = .ok true → ops.populateR = .error e →
      getTracksWithCache ops remote hasFilters page per_page true = remote) ∧
    (∀ e, ops.getAllR = .error e →
      getTracksWithCache ops remote false page per_page true = remote) ∧
    (∀ e, ops.getByFilterR = .error e →
      getTracksWithCache ops remote true page per_page true = remote) ∧
    (getTracksWithCache ops remote hasFilters page per_page true = remote ∨
      ∃ ts, getTracksWithCache ops remote hasFilters page per_page true =
        paginateCached ts page per_page) := by
  refine ⟨?_, ?_, ?_, ?_, ?_⟩
  · intro e he
    simp [getTracksWithCache, he, Except.bind]
  · intro e h1 h2
    simp [getTracksWithCache, h1, h2, Except.bind]
  · intro e he
    rcases h1 : ops.isEmptyR with e1 | b
    · simp [getTracksWithCache, h1, Except.bind]
    · cases b
      · simp [getTracksWithCache, h1, he, Except.bind]
      · rcases h2 : ops.populateR with e2 | u
        · simp [getTracksWithCache, h1, h2, Except.bind]
        · simp [getTracksWithCache, h1, h2, he, Except.bind]
  · intro e he
    rcases h1 : ops.isEmptyR with e1 | b
    · simp [getTracksWithCache, h1, Except.bind]
    · cases b
      · simp [getTracksWithCache, h1, he, Except.bind]
      · rcases h2 : ops.populateR with e2 | u
        · simp [getTracksWithCache, h1, h2, Except.bind]
        · simp [getTracksWithCache, h1, h2, he, Except.bind]
  · rcases h1 : ops.isEmptyR with e1 | b
    · left
      simp [getTracksWithCache, h1, Except.bind]
    · rcases h3 : (if hasFilters then ops.getByFilterR else ops.getAllR) with e3 | ts
      · cases b
        · left
          simp [getTracksWithCache, h1, h3, Except.bind]
        · rcases h2 : ops.populateR with e2 | u
          · left
            simp [getTracksWithCache, h1, h2, Except.bind]
          · left
            simp [getTracksWithCache, h1, h2, h3, Except.bind]
      · cases b
        · right
          exact ⟨ts, by simp [getTracksWithCache, h1, h3, Except.bind]⟩
        · rcases h2 : ops.populateR with e2 | u
          · left
            simp [getTracksWithCache, h1, h2, Except.bind]
          · right
            exact ⟨ts, by simp [getTracksWithCache, h1, h2, h3, Except.bind]⟩

/-- Store-operation results where `getAll` throws (as
`TrackCache.getAllTracks` rejects with "Failed to get tracks from cache"). -/
def opsGetAllFails : CacheOps :=
  { isEmptyR := .ok false, populateR := .ok (),
    getAllR := .error "Failed to get tracks from cache", getByFilterR := .ok [] }

/-- A sample direct remote response for the C3 witness. -/
def remoteSample : TrackListResponse :=
  { tracks := [mkTrack 5 "t" "a" "al" "g" "aa" "m"], total := 1, page := 1,
    per_page := 50, total_pages := 1 }

/-- Witness for C3: with `store.getAll()` throwing, `getTracks({},1,50,true)`
still resolves to the remote result. -/
theorem c3_cache_error_fallback_witness :
    getTracksWithCache opsGetAllFails remoteSample false 1 50 true = remoteSample :=
  (c3_cache_error_fallback opsGetAllFails remoteSample false 1 50).2.2.1
    "Failed to get tracks from cache" rfl

/-! ### C10 — the empty query matches every record -/

/-- C10: `searchTracks` with the empty query keeps every stored record, so
the cache-mode search over an empty query is the whole catalog, paginated. -/
theorem c10_empty_query_matches_all (tracks : List Track) (page per_page : Nat) :
    searchTracks tracks "" = tracks ∧
    searchTracksWithCache tracks "" page per_page = paginateCached tracks page per_page ∧
    (searchTracksWithCache tracks "" page per_page).total = tracks.length := by
  have he : jsToLower "" = "" := rfl
  have h1 : searchTracks tracks "" = tracks := by
    simp [searchTracks, he, strIncludes_empty]
  refine ⟨h1, ?_, ?_⟩
  · rw [searchTracksWithCache, h1]
  · rw [searchTracksWithCache, h1]
    rfl

/-! ### C1 — syncWithServer diff -/

/-- JavaScript `new Map(list.map(t => [t.id, t])).get(i)`: the last entry
with key `i` wins. -/
def mapGet (l : List Track) (i : Nat) : Option Track :=
  l.reverse.find? (fun t => t.id == i)

/-- JavaScript `new Map(list.map(t => [t.id, t])).has(i)`. -/
def mapHas (l : List Track) (i : Nat) : Bool :=
  l.any (fun t => t.id == i)

/-- Result of `TrackCache.syncWithServer`: the post-sync store state and
the three reported counts. -/
structure SyncResult where
  store : List Track
  added : Nat
  updated : Nat
  removed : Nat
  deriving DecidableEq

/-- Tracks pushed to `toAdd` (`src/lib/cache.ts:258-261`): server records
absent from the cached map. -/
def syncToAdd (server cached : List Track) : List Track :=
  server.filter (fun t => (mapGet cached t.id).isNone)

/-- Tracks pushed to `toUpdate` (`src/lib/cache.ts:262-264`): server
records present in the cached map with a differing `modified` field. -/
def syncToUpdate (server cached : List Track) : List Track :=
  server.filter (fun t =>
    match mapGet cached t.id with
    | some c => c.modified != t.modified
    | none => false)

/-- Identifiers pushed to `toRemove` (`src/lib/cache.ts:268-272`): cached
records whose id is absent from the server map. -/
def syncToRemove (server cached : List Track) : List Nat :=
  (cached.filter (fun c => !(mapHas server c.id))).map Track.id

/-- `TrackCache.syncWithServer` (`src/lib/cache.ts:245-288`): classify,
then `storeTracks([...toAdd, ...toUpdate])` when non-empty, then
`removeTracks(toRemove)` when non-empty, and return the three counts. -/
def syncWithServer (server cached : List Track) : SyncResult :=
  let toAdd := syncToAdd server cached
  let toUpdate := syncToUpdate server cached
  let toRemove := syncToRemove server cached
  let s1 := if toAdd.length > 0 ∨ toUpdate.length > 0
    then storeTracks cached (toAdd ++ toUpdate) else cached
  let s2 := if toRemove.length > 0 then removeTracks s1 toRemove else s1
  { store := s2, added := toAdd.length, updated := toUpdate.length,
    removed := toRemove.length }

theorem ids_append (a b : List Track) : ids (a ++ b) = ids a ++ ids b :=
  List.map_append ..

theorem mapGet_eq_none_iff (l : List Track) (i : Nat) :
    mapGet l i = none ↔ i ∉ ids l := by
  rw [mapGet, List.find?_eq_none]
  constructor
  · intro h hmem
    obtain ⟨t, ht, hid⟩ := (mem_ids_iff l i).mp hmem
    exact (h t (List.mem_reverse.mpr ht)) (by simpa using hid)
  · intro h t ht heq
    exact h ((mem_ids_iff l i).mpr ⟨t, List.mem_reverse.mp ht, by simpa using heq⟩)

theorem mapGet_some_mem (l : List Track) (i : Nat) (c : Track)
    (h : mapGet l i = some c) : c ∈ l ∧ c.id = i :=
  ⟨List.mem_reverse.mp (List.mem_of_find?_eq_some h),
   by simpa using List.find?_some h⟩

theorem mapGet_eq_some_iff (l : List Track) (i : Nat) (c : Track)
    (hnd : (ids l).Nodup) : mapGet l i = some c ↔ c ∈ l ∧ c.id = i := by
  constructor
  · exact mapGet_some_mem l i c
  · rintro ⟨hc, hid⟩
    have hsome : (l.reverse.find? (fun t => t.id == i)).isSome :=
      List.find?_isSome.mpr ⟨c, List.mem_reverse.mpr hc, by simpa using hid⟩
    obtain ⟨d, hd⟩ := Option.isSome_iff_exists.mp hsome
    obtain ⟨hdl, hdid⟩ := mapGet_some_mem l i d hd
    have hcd : c = d := id_inj l hnd hc hdl (by rw [hid, hdid])
    rw [mapGet, hd, ← hcd]

theorem mem_ids_syncToAdd (server cached : List Track) (i : Nat) :
    i ∈ ids (syncToAdd server cached) ↔ i ∈ ids server ∧ i ∉ ids cached := by
  rw [mem_ids_iff]
  constructor
  · rintro ⟨t, ht, rfl⟩
    obtain ⟨hts, hp⟩ := List.mem_filter.mp ht
    have hnone : mapGet cached t.id = none := by
      cases hm : mapGet cached t.id
      · rfl
      · rw [hm] at hp
        simp at hp
    exact ⟨(mem_ids_iff ..).mpr ⟨t, hts, rfl⟩, (mapGet_eq_none_iff ..).mp hnone⟩
  · rintro ⟨hsrv, hcch⟩
    obtain ⟨t, ht, rfl⟩ := (mem_ids_iff ..).mp hsrv
    refine ⟨t, List.mem_filter.mpr ⟨ht, ?_⟩, rfl⟩
    have hnone : mapGet cached t.id = none := (mapGet_eq_none_iff ..).mpr hcch
    simp [hnone]

theorem mem_ids_syncToUpdate_sub (server cached : List Track) (i : Nat)
    (h : i ∈ ids (syncToUpdate server cached)) :
    i ∈ ids server ∧ i ∈ ids cached := by
  obtain ⟨t, ht, rfl⟩ := (mem_ids_iff ..).mp h
  obtain ⟨hts, hp⟩ := List.mem_filter.mp ht
  refine ⟨(mem_ids_iff ..).mpr ⟨t, hts, rfl⟩, ?_⟩
  cases hm : mapGet cached t.id with
  | none =>
    rw [hm] at hp
    simp at hp
  | some c =>
    obtain ⟨hcl, hcid⟩ := mapGet_some_mem cached t.id c hm
    exact (mem_ids_iff ..).mpr ⟨c, hcl, hcid⟩

theorem mem_syncToRemove (server cached : List Track) (i : Nat) :
    i ∈ syncToRemove server cached ↔ i ∈ ids cached ∧ i ∉ ids server := by
  rw [syncToRemove]
  constructor
  · intro h
    obtain ⟨c, hc, rfl⟩ := List.mem_map.mp h
    obtain ⟨hcc, hp⟩ := List.mem_filter.mp hc
    have hfalse : mapHas server c.id = false := by simpa using hp
    refine ⟨(mem_ids_iff ..).mpr ⟨c, hcc, rfl⟩, fun hsrv => ?_⟩
    have htrue : mapHas server c.id = true := (any_id_iff ..).mpr hsrv
    rw [hfalse] at htrue
    exact Bool.false_ne_true htrue
  · rintro ⟨hcch, hsrv⟩
    obtain ⟨c, hcc, rfl⟩ := (mem_ids_iff ..).mp hcch
    refine List.mem_map.mpr ⟨c, List.mem_filter.mpr ⟨hcc, ?_⟩, rfl⟩
    have hfalse : mapHas server c.id = false := by
      cases h : mapHas server c.id
      · rfl
      · exact absurd ((any_id_iff ..).mp h) hsrv
    simp [hfalse]

theorem syncWithServer_store_eq (server cached : List Track) :
    (syncWithServer server cached).store =
      removeTracks
        (storeTracks cached (syncToAdd server cached ++ syncToUpdate server cached))
        (syncToRemove server cached) := by
  by_cases h1 : (syncToAdd server cached).length > 0 ∨ (syncToUpdate server cached).length > 0
  · by_cases h2 : (syncToRemove server cached).length > 0
    · simp [syncWithServer, h1, h2]
    · have hr : syncToRemove server cached = [] := List.length_eq_zero.mp (by omega)
      simp [syncWithServer, h1, h2, hr, removeTracks_nil]
  · push_neg at h1
    obtain ⟨h1a, h1b⟩ := h1
    have ha : syncToAdd server cached = [] := List.length_eq_zero.mp (by omega)
    have hu : syncToUpdate server cached = [] := List.length_eq_zero.mp (by omega)
    by_cases h2 : (syncToRemove server cached).length > 0
    · simp [syncWithServer, ha, hu, h2, storeTracks_nil]
    · have hr : syncToRemove server cached = [] := List.length_eq_zero.mp (by omega)
      simp [syncWithServer, ha, hu, hr, storeTracks_nil, removeTracks_nil]

/-- C1: syncWithServer classifies by identifier presence and `modified`
mismatch, reports the three counts, and afterwards the store's identifier
set equals the server's, with every record that shares an identifier with
a server record carrying that server record's `modified` value.  The two
`Nodup` hypotheses are the key-uniqueness invariants of the cached store
(keyed by `id`) and of the server catalog snapshot. -/
theorem c1_sync_diff_correct (server cached : List Track)
    (hs : (ids server).Nodup) (hc : (ids cached).Nodup) :
    (syncWithServer server cached).added =
      server.countP (fun t => decide (t.id ∉ ids cached)) ∧
    (syncWithServer server cached).updated =
      server.countP (fun t =>
        decide (∃ c ∈ cached, c.id = t.id ∧ c.modified ≠ t.modified)) ∧
    (syncWithServer server cached).removed =
      cached.countP (fun c => decide (c.id ∉ ids server)) ∧
    (∀ i, i ∈ ids (syncWithServer server cached).store ↔ i ∈ ids server) ∧
    (∀ u ∈ (syncWithServer server cached).store, ∀ t ∈ server,
      u.id = t.id → u.modified = t.modified) := by
  refine ⟨?_, ?_, ?_, ?_, ?_⟩
  · show (syncToAdd server cached).length = _
    rw [syncToAdd, ← List.countP_eq_length_filter]
    apply List.countP_congr
    intro t _
    rw [Option.isNone_iff_eq_none, mapGet_eq_none_iff, decide_eq_true_iff]
  · show (syncToUpdate server cached).length = _
    rw [syncToUpdate, ← List.countP_eq_length_filter]
    apply List.countP_congr
    intro t _
    rw [decide_eq_true_iff]
    cases hm : mapGet cached t.id with
    | none =>
      constructor
      · intro hfalse
        simp at hfalse
      · rintro ⟨c, hcm, hcid, _⟩
        have : t.id ∈ ids cached := (mem_ids_iff ..).mpr ⟨c, hcm, hcid⟩
        exact absurd this ((mapGet_eq_none_iff ..).mp hm)
    | some c =>
      obtain ⟨hcl, hcid⟩ := mapGet_some_mem cached t.id c hm
      constructor
      · intro hbne
        exact ⟨c, hcl, hcid, by simpa [bne_iff_ne] using hbne⟩
      · rintro ⟨c', hc', hid', hne'⟩
        have hcc : c' = c := id_inj cached hc hc' hcl (by rw [hid', hcid])
        subst hcc
        simpa [bne_iff_ne] using hne'
  · show (syncToRemove server cached).length = _
    rw [syncToRemove, List.length_map, ← List.countP_eq_length_filter]
    apply List.countP_congr
    intro c _
    constructor
    · intro hp
      have hfalse : mapHas server c.id = false := by simpa using hp
      rw [decide_eq_true_iff]
      intro hsrv
      have htrue : mapHas server c.id = true := (any_id_iff ..).mpr hsrv
      rw [hfalse] at htrue
      exact Bool.false_ne_true htrue
    · intro hq
      rw [decide_eq_true_iff] at hq
      have hfalse : mapHas server c.id = false := by
        cases h : mapHas server c.id
        · rfl
        · exact absurd ((any_id_iff ..).mp h) hq
      simp [hfalse]
  · intro i
    rw [syncWithServer_store_eq, mem_ids_removeTracks, mem_ids_storeTracks,
      mem_syncToRemove]
    constructor
    · rintro ⟨hmem, hnr⟩
      rcases hmem with hcached | hbatch
      · by_contra hns
        exact hnr ⟨hcached, hns⟩
      · rw [ids_append, List.mem_append] at hbatch
        rcases hbatch with hadd | hupd
        · exact ((mem_ids_syncToAdd ..).mp hadd).1
        · exact (mem_ids_syncToUpdate_sub server cached i hupd).1
    · intro hserver
      refine ⟨?_, ?_⟩
      · by_cases hcached : i ∈ ids cached
        · exact Or.inl hcached
        · right
          rw [ids_append, List.mem_append]
          exact Or.inl ((mem_ids_syncToAdd ..).mpr ⟨hserver, hcached⟩)
      · rintro ⟨_, hns⟩
        exact hns hserver
  · intro u hu t ht hid
    rw [syncWithServer_store_eq] at hu
    obtain ⟨hu1, hu2⟩ := (mem_removeTracks _ _ u).mp hu
    rcases mem_storeTracks_decomp _ _ u hu1 with hbatch | ⟨hcach, hni⟩
    · rcases List.mem_append.mp hbatch with hadd | hupd
      · have hus : u ∈ server := List.mem_of_mem_filter hadd
        have heq : u = t := id_inj server hs hus ht hid
        rw [heq]
      · have hus : u ∈ server := List.mem_of_mem_filter hupd
        have heq : u = t := id_inj server hs hus ht hid
        rw [heq]
    · by_contra hmod
      have hmg : mapGet cached t.id = some u :=
        (mapGet_eq_some_iff cached t.id u hc).mpr ⟨hcach, hid⟩
      have htu : t ∈ syncToUpdate server cached := by
        apply List.mem_filter.mpr
        refine ⟨ht, ?_⟩
        show (match mapGet cached t.id with
          | some c => c.modified != t.modified
          | none => false) = true
        rw [hmg]
        simpa [bne_iff_ne] using hmod
      apply hni
      rw [ids_append, List.mem_append]
      right
      rw [hid]
      exact (mem_ids_iff ..).mpr ⟨t, htu, rfl⟩

/-- The cached snapshot of the C1 witness: records 1, 2 (modified=T1), 3. -/
def cachedEx : List Track :=
  [mkTrack 1 "t1" "a" "al" "g" "aa" "m1",
   mkTrack 2 "t2" "a" "al" "g" "aa" "T1",
   mkTrack 3 "t3" "a" "al" "g" "aa" "m3"]

/-- The server snapshot of the C1 witness: records 2 (modified=T2), 3, 4. -/
def serverEx : List Track :=
  [mkTrack 2 "t2" "a" "al" "g" "aa" "T2",
   mkTrack 3 "t3" "a" "al" "g" "aa" "m3",
   mkTrack 4 "t4" "a" "al" "g" "aa" "m4"]

/-- Witness for C1 on the spec's example: added=1, updated=1, removed=1,
post-sync identifier set {2,3,4}, record 2 carrying modified=T2. -/
theorem c1_sync_diff_correct_witness :
    (ids serverEx).Nodup ∧ (ids cachedEx).Nodup ∧
    ((syncWithServer serverEx cachedEx).added =
        serverEx.countP (fun t => decide (t.id ∉ ids cachedEx)) ∧
      (syncWithServer serverEx cachedEx).updated =
        serverEx.countP (fun t =>
          decide (∃ c ∈ cachedEx, c.id = t.id ∧ c.modified ≠ t.modified)) ∧
      (syncWithServer serverEx cachedEx).removed =
        cachedEx.countP (fun c => decide (c.id ∉ ids serverEx)) ∧
      (∀ i, i ∈ ids (syncWithServer serverEx cachedEx).store ↔ i ∈ ids serverEx) ∧
      (∀ u ∈ (syncWithServer serverEx cachedEx).store, ∀ t ∈ serverEx,
        u.id = t.id → u.modified = t.modified)) ∧
    (syncWithServer serverEx cachedEx).added = 1 ∧
    (syncWithServer serverEx cachedEx).updated = 1 ∧
    (syncWithServer serverEx cachedEx).removed = 1 ∧
    ids (syncWithServer serverEx cachedEx).store = [2, 3, 4] ∧
    mapGet (syncWithServer serverEx cachedEx).store 2 =
      some (mkTrack 2 "t2" "a" "al" "g" "aa" "T2") :=
  ⟨by decide, by decide,
   c1_sync_diff_correct serverEx cachedEx (by decide) (by decide),
   by decide, by decide, by decide, by decide, by decide⟩

/-! ### C6 — index lookup versus full-scan fallback -/

/-- `TrackCache.getTracksByIndex` (`src/lib/cache.ts:113-130`): the
IndexedDB secondary-index lookup `index.getAll(value)` returns exactly the
records whose indexed field equals the key — exact, case-sensitive. -/
def getTracksByIndex (tracks : List Track) (field : StrField) (value : String) : List Track :=
  tracks.filter (fun t => t.getStr field == value)

/-- The full-scan fallback of `TrackCache.getTracksByFilter`
(`src/lib/cache.ts:99-109`) specialised to a single string-valued filter:
case-insensitive substring containment
(`trackValue.toLowerCase().includes(value.toLowerCase())`). -/
def getTracksByFilterScan (tracks : List Track) (field : StrField) (value : String) : List Track :=
  tracks.filter (fun t => strIncludes (jsToLower (t.getStr field)) (jsToLower value))

/-- C6 as stated is false: the index lookup is exact and case-sensitive
while the scan fallback is case-insensitive substring containment, so on a
store holding a record with artist "Queenie", the single-field filter
artist="Queen" yields the empty identifier set from the index and the
record's identifier from the scan. -/
theorem c6_index_scan_not_equivalent :
    ¬ (∀ (tracks : List Track) (field : StrField) (value : String),
        isIndexedField field = true →
        ∀ i, i ∈ ids (getTracksByIndex tracks field value) ↔
          i ∈ ids (getTracksByFilterScan tracks field value)) := by
  intro h
  have h7 := (h [mkTrack 7 "t" "Queenie" "al" "g" "aa" "m"] .artist "Queen" rfl 7).mpr
    (by decide)
  have hno : ¬ (7 ∈ ids (getTracksByIndex
      [mkTrack 7 "t" "Queenie" "al" "g" "aa" "m"] .artist "Queen")) := by decide
  exact hno h7

/-- C6 amended: for a single-field exact filter on an indexed field, the
index lookup's identifier set is always a subset of the scan fallback's,
and the two coincide exactly when every stored value containing the filter
value case-insensitively is equal to it. -/
theorem c6_index_subset_scan (tracks : List Track) (field : StrField) (value : String)
    (hidx : isIndexedField field = true) :
    (∀ i, i ∈ ids (getTracksByIndex tracks field value) →
      i ∈ ids (getTracksByFilterScan tracks field value)) ∧
    ((∀ t ∈ tracks,
        strIncludes (jsToLower (t.getStr field)) (jsToLower value) = true →
        t.getStr field = value) →
      ∀ i, i ∈ ids (getTracksByIndex tracks field value) ↔
        i ∈ ids (getTracksByFilterScan tracks field value)) := by
  have hsub : ∀ i, i ∈ ids (getTracksByIndex tracks field value) →
      i ∈ ids (getTracksByFilterScan tracks field value) := by
    intro i hi
    obtain ⟨t, ht, rfl⟩ := (mem_ids_iff ..).mp hi
    obtain ⟨hmem, hpred⟩ := List.mem_filter.mp ht
    have heq : t.getStr field = value := by simpa using hpred
    refine (mem_ids_iff ..).mpr ⟨t, List.mem_filter.mpr ⟨hmem, ?_⟩, rfl⟩
    rw [heq]
    exact strIncludes_self (jsToLower value)
  refine ⟨hsub, ?_⟩
  intro hexact i
  refine ⟨hsub i, ?_⟩
  intro hi
  obtain ⟨t, ht, rfl⟩ := (mem_ids_iff ..).mp hi
  obtain ⟨hmem, hpred⟩ := List.mem_filter.mp ht
  have heq : t.getStr field = value := hexact t hmem hpred
  refine (mem_ids_iff ..).mpr ⟨t, List.mem_filter.mpr ⟨hmem, ?_⟩, rfl⟩
  simp [heq]

/-- Witness for C6 (amended): on a store whose only artist value is
exactly "Queen", the index lookup and the scan fallback agree. -/
theorem c6_index_subset_scan_witness :
    isIndexedField .artist = true ∧
    (∀ i, i ∈ ids (getTracksByIndex
        [mkTrack 8 "t" "Queen" "al" "g" "aa" "m"] .artist "Queen") ↔
      i ∈ ids (getTracksByFilterScan
        [mkTrack 8 "t" "Queen" "al" "g" "aa" "m"] .artist "Queen")) ∧
    8 ∈ ids (getTracksByIndex [mkTrack 8 "t" "Queen" "al" "g" "aa" "m"] .artist "Queen") :=
  ⟨by decide,
   (c6_index_subset_scan [mkTrack 8 "t" "Queen" "al" "g" "aa" "m"] .artist "Queen"
      (by decide)).2 (by decide),
   by decide⟩

/-! ### C9 — getUniqueValues -/

/-- One loop iteration of `TrackCache.getUniqueValues`
(`src/lib/cache.ts:218-223`): `if (value && typeof value === 'string' &&
value.trim()) values.add(value)` — the untrimmed value is added when it is
non-empty and not whitespace-only; the JS `Set` keeps one copy (first
insertion wins). -/
def uniqueAdd (acc : List String) (value : String) : List String :=
  if value ≠ "" ∧ jsTrim value ≠ "" then
    (if acc.contains value then acc else acc ++ [value])
  else acc

/-- `TrackCache.getUniqueValues` (`src/lib/cache.ts:214-226`): collect the
set of qualifying field values, then `Array.from(values).sort()` — the
default JS sort on strings, i.e. lexicographic order. -/
def getUniqueValues (tracks : List Track) (field : StrField) : List String :=
  (tracks.foldl (fun acc t => uniqueAdd acc (t.getStr field)) []).mergeSort

theorem mem_uniqueAdd (acc : List String) (v w : String) :
    w ∈ uniqueAdd acc v ↔ w ∈ acc ∨ (w = v ∧ v ≠ "" ∧ jsTrim v ≠ "") := by
  rw [uniqueAdd]
  by_cases h1 : v ≠ "" ∧ jsTrim v ≠ ""
  · rw [if_pos h1]
    by_cases h2 : acc.contains v = true
    · rw [if_pos h2]
      have hv : v ∈ acc := by simpa using h2
      constructor
      · exact Or.inl
      · rintro (h | ⟨rfl, _⟩)
        · exact h
        · exact hv
    · rw [if_neg h2]
      rw [List.mem_append, List.mem_singleton]
      tauto
  · rw [if_neg h1]
    tauto

theorem nodup_uniqueAdd (acc : List String) (v : String) (h : acc.Nodup) :
    (uniqueAdd acc v).Nodup := by
  rw [uniqueAdd]
  by_cases h1 : v ≠ "" ∧ jsTrim v ≠ ""
  · rw [if_pos h1]
    by_cases h2 : acc.contains v = true
    · rw [if_pos h2]
      exact h
    · rw [if_neg h2]
      have hv : v ∉ acc := by
        intro hmem
        exact h2 (by simpa using hmem)
      simp [List.nodup_append, h, hv]
  · rw [if_neg h1]
    exact h

theorem mem_foldl_uniqueAdd (field : StrField) (l : List Track) (acc : List String)
    (v : String) :
    v ∈ l.foldl (fun acc t => uniqueAdd acc (t.getStr field)) acc ↔
      v ∈ acc ∨ ∃ t ∈ l, t.getStr field = v ∧ v ≠ "" ∧ jsTrim v ≠ "" := by
  induction l generalizing acc with
  | nil => simp
  | cons t rest ih =>
    rw [List.foldl_cons, ih, mem_uniqueAdd]
    constructor
    · rintro ((hacc | ⟨rfl, hne, htr⟩) | ⟨t', ht', hval, hne, htr⟩)
      · exact Or.inl hacc
      · exact Or.inr ⟨t, List.mem_cons_self t rest, rfl, hne, htr⟩
      · exact Or.inr ⟨t', List.mem_cons_of_mem t ht', hval, hne, htr⟩
    · rintro (hacc | ⟨t', ht', hval, hne, htr⟩)
      · exact Or.inl (Or.inl hacc)
      · rcases List.mem_cons.mp ht' with rfl | hrest
        · exact Or.inl (Or.inr ⟨hval.symm, hval ▸ hne, hval ▸ htr⟩)
        · exact Or.inr ⟨t', hrest, hval, hne, htr⟩

theorem nodup_foldl_uniqueAdd (field : StrField) (l : List Track) (acc : List String)
    (h : acc.Nodup) :
    (l.foldl (fun acc t => uniqueAdd acc (t.getStr field)) acc).Nodup := by
  induction l generalizing acc with
  | nil => exact h
  | cons t rest ih =>
    rw [List.foldl_cons]
    exact ih _ (nodup_uniqueAdd acc (t.getStr field) h)

/-- C9 as stated is false in its "trimmed" part: `getUniqueValues` adds the
stored value itself, not `value.trim()`, so a stored artist " Queen "
(with surrounding spaces) is returned untrimmed. -/
theorem c9_values_not_trimmed :
    ¬ (∀ (tracks : List Track) (field : StrField),
        ∀ v ∈ getUniqueValues tracks field, jsTrim v = v) := by
  intro h
  have hev : getUniqueValues [mkTrack 9 "t" " Queen " "al" "g" "aa" "m"] .artist =
      List.mergeSort [" Queen "] := rfl
  have hmem : " Queen " ∈ getUniqueValues [mkTrack 9 "t" " Queen " "al" "g" "aa" "m"] .artist := by
    rw [hev, List.mergeSort_singleton]
    exact List.mem_singleton.mpr rfl
  have htr := h _ _ " Queen " hmem
  exact absurd htr (by decide)

/-- C9 amended: `getUniqueValues` returns the distinct, non-blank
(non-empty and not whitespace-only) values of the field across all stored
records, lexicographically sorted; the values are returned as stored, not
trimmed. -/
theorem c9_unique_values_amended (tracks : List Track) (field : StrField) :
    (getUniqueValues tracks field).Nodup ∧
    (getUniqueValues tracks field).Sorted (· ≤ ·) ∧
    (∀ v, v ∈ getUniqueValues tracks field ↔
      (∃ t ∈ tracks, t.getStr field = v) ∧ v ≠ "" ∧ jsTrim v ≠ "") := by
  refine ⟨?_, ?_, ?_⟩
  · exact ((List.mergeSort_perm _ _).nodup_iff).mpr
      (nodup_foldl_uniqueAdd field tracks [] List.nodup_nil)
  · exact List.sorted_mergeSort' _
  · intro v
    rw [getUniqueValues, List.mem_mergeSort, mem_foldl_uniqueAdd]
    simp only [List.not_mem_nil, false_or]
    tauto

/-- Witness for C9 (amended): the stored value " Queen " qualifies and is
returned by `getUniqueValues`, exactly as stored. -/
theorem c9_unique_values_amended_witness :
    " Queen " ∈ getUniqueValues [mkTrack 9 "t" " Queen " "al" "g" "aa" "m"] .artist :=
  ((c9_unique_values_amended [mkTrack 9 "t" " Queen " "al" "g" "aa" "m"] .artist).2.2
    " Queen ").mpr (by decide)

/-! ### C4 — concurrent cache-mode queries against an empty store

`ApiService.getTracksWithCache` checks `await trackCache.isEmpty()` and, if
true, runs `await this.populateCache(...)` (`src/lib/types.ts:432-436`);
`populateCache` fetches the full catalog once and stores it
(`src/lib/types.ts:504-516`).  There is no in-flight guard, so the `await`
boundary between the emptiness check and the population is an interleaving
point.  Two concurrent callers are modelled as a two-phase task each
(`checking`: about to test emptiness; `populating`: about to fetch and
store), driven by an arbitrary schedule; `fetchCount` counts the
full-catalog fetches (`getAllTracksFromServer` invocations). -/

/-- Progress of one caller through `getTracksWithCache`'s populate-on-empty
prologue. -/
inductive CallerPhase where
  | checking | populating | done
  deriving DecidableEq

/-- Shared store plus the two callers' phases and the fetch counter. -/
structure ConcState where
  store : List Track
  fetchCount : Nat
  phase0 : CallerPhase
  phase1 : CallerPhase
  deriving DecidableEq

def phaseOf (st : ConcState) (i : Bool) : CallerPhase :=
  if i then st.phase1 else st.phase0

def withPhase (st : ConcState) (i : Bool) (p : CallerPhase) : ConcState :=
  if i then { st with phase1 := p } else { st with phase0 := p }

/-- One scheduled step of caller `i`: a checking caller tests
`trackCache.isEmpty()` and proceeds to populate (store empty) or straight
to its query (store non-empty); a populating caller performs one
`populateCache` pass — one full-catalog fetch followed by
`storeTracks(allTracks)` — and finishes. -/
def stepCaller (server : List Track) (st : ConcState) (i : Bool) : ConcState :=
  match phaseOf st i with
  | .checking =>
    if isEmpty st.store then withPhase st i .populating else withPhase st i .done
  | .populating =>
    { withPhase st i .done with
        store := storeTracks st.store server, fetchCount := st.fetchCount + 1 }
  | .done => st

/-- Run a schedule (a list of caller indices) from a state. -/
def runSched (server : List Track) (st : ConcState) (sched : List Bool) : ConcState :=
  sched.foldl (stepCaller server) st

/-- Both callers issue a cache-mode query against an empty store. -/
def initConcState : ConcState :=
  { store := [], fetchCount := 0, phase0 := .checking, phase1 := .checking }

def bothDone (st : ConcState) : Prop :=
  st.phase0 = .done ∧ st.phase1 = .done

def phasePay : CallerPhase → Nat
  | .done => 1
  | _ => 0

theorem isEmpty_iff (s : List Track) : isEmpty s = true ↔ s = [] := by
  simp [isEmpty, List.length_eq_zero]

theorem stepCaller_inv (server : List Track) (st : ConcState) (i : Bool)
    (h1 : st.fetchCount ≤ phasePay st.phase0 + phasePay st.phase1)
    (h2 : st.fetchCount = 0 →
      st.store = [] ∧ st.phase0 ≠ .done ∧ st.phase1 ≠ .done) :
    (stepCaller server st i).fetchCount ≤
      phasePay (stepCaller server st i).phase0 +
        phasePay (stepCaller server st i).phase1 ∧
    ((stepCaller server st i).fetchCount = 0 →
      (stepCaller server st i).store = [] ∧
      (stepCaller server st i).phase0 ≠ .done ∧
      (stepCaller server st i).phase1 ≠ .done) := by
  cases i
  · cases hp : st.phase0 with
    | checking =>
      by_cases he : isEmpty st.store = true
      · have hst : stepCaller server st false = { st with phase0 := .populating } := by
          simp [stepCaller, phaseOf, hp, he, withPhase]
        rw [hst]
        constructor
        · simp only [phasePay]
          rw [hp] at h1
          simp only [phasePay] at h1
          omega
        · intro h0
          obtain ⟨hs, _, hd1⟩ := h2 h0
          exact ⟨hs, by simp, hd1⟩
      · have hst : stepCaller server st false = { st with phase0 := .done } := by
          simp [stepCaller, phaseOf, hp, he, withPhase]
        rw [hst]
        constructor
        · simp only [phasePay]
          rw [hp] at h1
          simp only [phasePay] at h1
          omega
        · intro h0
          obtain ⟨hs, _, _⟩ := h2 h0
          exact absurd ((isEmpty_iff st.store).mpr hs) he
    | populating =>
      have hst : stepCaller server st false =
          { st with
            phase0 := .done
            store := storeTracks st.store server
            fetchCount := st.fetchCount + 1 } := by
        simp [stepCaller, phaseOf, hp, withPhase]
      rw [hst]
      constructor
      · simp only [phasePay]
        rw [hp] at h1
        simp only [phasePay] at h1
        omega
      · intro h0
        simp at h0
    | done =>
      have hst : stepCaller server st false = st := by
        simp [stepCaller, phaseOf, hp]
      rw [hst]
      exact ⟨h1, h2⟩
  · cases hp : st.phase1 with
    | checking =>
      by_cases he : isEmpty st.store = true
      · have hst : stepCaller server st true = { st with phase1 := .populating } := by
          simp [stepCaller, phaseOf, hp, he, withPhase]
        rw [hst]
        constructor
        · simp only [phasePay]
          rw [hp] at h1
          simp only [phasePay] at h1
          omega
        · intro h0
          obtain ⟨hs, hd0, _⟩ := h2 h0
          exact ⟨hs, hd0, by simp⟩
      · have hst : stepCaller server st true = { st with phase1 := .done } := by
          simp [stepCaller, phaseOf, hp, he, withPhase]
        rw [hst]
        constructor
        · simp only [phasePay]
          rw [hp] at h1
          simp only [phasePay] at h1
          omega
        · intro h0
          obtain ⟨hs, _, _⟩ := h2 h0
          exact absurd ((isEmpty_iff st.store).mpr hs) he
    | populating =>
      have hst : stepCaller server st true =
          { st with
            phase1 := .done
            store := storeTracks st.store server
            fetchCount := st.fetchCount + 1 } := by
        simp [stepCaller, phaseOf, hp, withPhase]
      rw [hst]
      constructor
      · simp only [phasePay]
        rw [hp] at h1
        simp only [phasePay] at h1
        omega
      · intro h0
        simp at h0
    | done =>
      have hst : stepCaller server st true = st := by
        simp [stepCaller, phaseOf, hp]
      rw [hst]
      exact ⟨h1, h2⟩

theorem runSched_inv (server : List Track) (sched : List Bool) (st : ConcState)
    (h1 : st.fetchCount ≤ phasePay st.phase0 + phasePay st.phase1)
    (h2 : st.fetchCount = 0 →
      st.store = [] ∧ st.phase0 ≠ .done ∧ st.phase1 ≠ .done) :
    (runSched server st sched).fetchCount ≤
      phasePay (runSched server st sched).phase0 +
        phasePay (runSched server st sched).phase1 ∧
    ((runSched server st sched).fetchCount = 0 →
      (runSched server st sched).store = [] ∧
      (runSched server st sched).phase0 ≠ .done ∧
      (runSched server st sched).phase1 ≠ .done) := by
  induction sched generalizing st with
  | nil => exact ⟨h1, h2⟩
  | cons i rest ih =>
    have hstep := stepCaller_inv server st i h1 h2
    exact ih (stepCaller server st i) hstep.1 hstep.2

/-- C4 as stated is false: without an in-flight guard, the schedule in
which both callers pass the emptiness check before either populates makes
each caller run its own full-catalog fetch — two `fetchAll` invocations,
not exactly one. -/
theorem c4_not_single_fetch :
    ¬ (∀ (server : List Track) (sched : List Bool),
        bothDone (runSched server initConcState sched) →
        (runSched server initConcState sched).fetchCount = 1) := by
  intro h
  have h2 := h [mkTrack 1 "t" "a" "al" "g" "aa" "m"] [false, true, false, true]
    (by constructor <;> decide)
  exact absurd h2 (by decide)

/-- C4 amended: for every interleaving of two concurrent cache-mode
callers against an empty store in which both complete, the number of
full-catalog fetches is between 1 and 2 — each caller that saw the store
empty fetches on its own; the code has no in-flight guard deduplicating
them. -/
theorem c4_population_bounded (server : List Track) (sched : List Bool)
    (h : bothDone (runSched server initConcState sched)) :
    1 ≤ (runSched server initConcState sched).fetchCount ∧
    (runSched server initConcState sched).fetchCount ≤ 2 := by
  have hinv := runSched_inv server sched initConcState
    (by simp [initConcState, phasePay])
    (fun _ => ⟨rfl, by simp [initConcState], by simp [initConcState]⟩)
  obtain ⟨hub, hlb⟩ := hinv
  obtain ⟨hd0, hd1⟩ := h
  constructor
  · by_contra hlt
    have h0 : (runSched server initConcState sched).fetchCount = 0 := by omega
    obtain ⟨_, hne, _⟩ := hlb h0
    exact hne hd0
  · rw [hd0, hd1] at hub
    simp only [phasePay] at hub
    omega

/-- Witness for C4 (amended): the double-fetch schedule completes both
callers within the bounds, with exactly two fetches. -/
theorem c4_population_bounded_witness :
    bothDone (runSched [mkTrack 1 "t" "a" "al" "g" "aa" "m"] initConcState
      [false, true, false, true]) ∧
    (1 ≤ (runSched [mkTrack 1 "t" "a" "al" "g" "aa" "m"] initConcState
        [false, true, false, true]).fetchCount ∧
      (runSched [mkTrack 1 "t" "a" "al" "g" "aa" "m"] initConcState
        [false, true, false, true]).fetchCount ≤ 2) ∧
    (runSched [mkTrack 1 "t" "a" "al" "g" "aa" "m"] initConcState
      [false, true, false, true]).fetchCount = 2 :=
  ⟨⟨by decide, by decide⟩,
   c4_population_bounded _ _ ⟨by decide, by decide⟩,
   by decide⟩

/-! ### C8 — rescanLibrary invalidation -/

/-- The two externally visible actions of `ApiService.rescanLibrary`
(`src/lib/types.ts:629-642`), in order: the POST to the server rescan
endpoint, then the cache clear. -/
inductive RescanStep where
  | serverRescan | cacheClear
  deriving DecidableEq

/-- `ApiService.rescanLibrary`: trigger the server rescan, then clear the
entire local cache; returns the action order and the post-call store. -/
def rescanLibrary (store : List Track) : List RescanStep × List Track :=
  ([.serverRescan, .cacheClear], clearCache store)

/-- The populate-on-empty condition of the next cache-mode query
(`src/lib/types.ts:434`): it fetches the catalog exactly when the store is
empty. -/
def cacheQueryFetches (store : List Track) : Bool := isEmpty store

/-- The `ApiService` operations that touch the local store, with their
store effect (server catalog fixed as a parameter): the six cache-mode
readers populate when empty (`src/lib/types.ts:432-436,476-480,561-626`),
`populateCache` stores the full catalog (`504-516`), `syncCache` applies
the sync diff (`519-527`), and `clearCache` (`530-532`) and
`rescanLibrary` (`629-642`) clear the store. -/
inductive FacadeOp where
  | getTracksCached | searchTracksCached | getArtistsOp | getAlbumsOp
  | getGenresOp | getAlbumsForArtistOp | populateCacheOp | syncCacheOp
  | clearCacheOp | rescanLibraryOp
  deriving DecidableEq

def opStoreEffect (op : FacadeOp) (server store : List Track) : List Track :=
  match op with
  | .getTracksCached | .searchTracksCached | .getArtistsOp | .getAlbumsOp
  | .getGenresOp | .getAlbumsForArtistOp =>
    if isEmpty store then storeTracks store server else store
  | .populateCacheOp => storeTracks store server
  | .syncCacheOp => (syncWithServer server store).store
  | .clearCacheOp => clearCache store
  | .rescanLibraryOp => (rescanLibrary store).2

/-- C8's uniqueness part as stated is false: `ApiService.clearCache` also
unconditionally empties the store, so `rescanLibrary` is not the only
operation that unconditionally destroys cache contents. -/
theorem c8_not_only_rescan_destroys :
    ¬ (∀ op : FacadeOp,
        (∀ server store, opStoreEffect op server store = []) →
        op = .rescanLibraryOp) := by
  intro h
  have hcl := h .clearCacheOp (fun _ _ => rfl)
  exact absurd hcl (by decide)

/-- C8 amended: `rescanLibrary` triggers the server rescan and then
unconditionally clears the store, so afterwards `isEmpty` holds and the
next cache-mode query performs a fresh full-catalog fetch; among the
facade's store-touching operations, exactly `clearCache` and
`rescanLibrary` unconditionally destroy cache contents. -/
theorem c8_rescan_invalidation (store : List Track) :
    rescanLibrary store = ([RescanStep.serverRescan, RescanStep.cacheClear], []) ∧
    isEmpty (rescanLibrary store).2 = true ∧
    cacheQueryFetches (rescanLibrary store).2 = true ∧
    (∀ op : FacadeOp,
      (∀ server st, opStoreEffect op server st = []) ↔
        (op = .clearCacheOp ∨ op = .rescanLibraryOp)) := by
  refine ⟨rfl, rfl, rfl, ?_⟩
  intro op
  constructor
  · intro hall
    cases op with
    | getTracksCached =>
      exact absurd (hall [mkTrack 1 "t" "a" "al" "g" "aa" "m"]
        [mkTrack 1 "t" "a" "al" "g" "aa" "m"]) (by decide)
    | searchTracksCached =>
      exact absurd (hall [mkTrack 1 "t" "a" "al" "g" "aa" "m"]
        [mkTrack 1 "t" "a" "al" "g" "aa" "m"]) (by decide)
    | getArtistsOp =>
      exact absurd (hall [mkTrack 1 "t" "a" "al" "g" "aa" "m"]
        [mkTrack 1 "t" "a" "al" "g" "aa" "m"]) (by decide)
    | getAlbumsOp =>
      exact absurd (hall [mkTrack 1 "t" "a" "al" "g" "aa" "m"]
        [mkTrack 1 "t" "a" "al" "g" "aa" "m"]) (by decide)
    | getGenresOp =>
      exact absurd (hall [mkTrack 1 "t" "a" "al" "g" "aa" "m"]
        [mkTrack 1 "t" "a" "al" "g" "aa" "m"]) (by decide)
    | getAlbumsForArtistOp =>
      exact absurd (hall [mkTrack 1 "t" "a" "al" "g" "aa" "m"]
        [mkTrack 1 "t" "a" "al" "g" "aa" "m"]) (by decide)
    | populateCacheOp =>
      exact absurd (hall [mkTrack 1 "t" "a" "al" "g" "aa" "m"]
        [mkTrack 1 "t" "a" "al" "g" "aa" "m"]) (by decide)
    | syncCacheOp =>
      exact absurd (hall [mkTrack 1 "t" "a" "al" "g" "aa" "m"]
        [mkTrack 1 "t" "a" "al" "g" "aa" "m"]) (by decide)
    | clearCacheOp => exact Or.inl rfl
    | rescanLibraryOp => exact Or.inr rfl
  · rintro (rfl | rfl) <;> exact fun _ _ => rfl

/-- Witness for C8 (amended): concrete non-empty prior store. -/
theorem c8_rescan_invalidation_witness :
    rescanLibrary [mkTrack 1 "t" "a" "al" "g" "aa" "m"] =
      ([RescanStep.serverRescan, RescanStep.cacheClear], []) ∧
    (∀ server st, opStoreEffect FacadeOp.clearCacheOp server st = []) :=
  ⟨(c8_rescan_invalidation [mkTrack 1 "t" "a" "al" "g" "aa" "m"]).1,
   ((c8_rescan_invalidation [mkTrack 1 "t" "a" "al" "g" "aa" "m"]).2.2.2
      FacadeOp.clearCacheOp).mpr (Or.inl rfl)⟩

end Ongaku
